import Mathlib

/-!
Verification of the nbodykit catalog-reading subsystem described in
`docs/source/catalogs/reading.ipynb`.

The notebook documents a columnar dataset abstraction: per-file format
adapters exposing `size`, a schema and a strided range `read`; a multi-file
stack combining adapters that share one schema into a single globally
indexed dataset; and a user-facing dataset source that layers in the
synthesized default columns `Selection`, `Weight` and `Value`.  The only
executable code shipped in the repository itself is the `NPYFile` example
class from the custom-format section of the notebook; the core `nbodykit.io`
module is modelled here from the specification's description, while
`NPYFile` is translated directly from the notebook source.
-/

/-- A cell value: boolean, numeric (1.0 is modelled as `(1 : Rat)`), or a
fixed-shape numeric vector. -/
inductive CellVal where
  | bval : Bool → CellVal
  | nval : Rat → CellVal
  | vval : List Rat → CellVal
deriving DecidableEq

abbrev ColName := String

/-- A dtype descriptor together with the fixed per-row shape,
e.g. `("f8", 3)` for a 3-vector of 8-byte floats. -/
abbrev DType := String × Nat

/-- A schema: ordered association of column names to dtype/shape pairs. -/
abbrev Schema := List (ColName × DType)

/-- One structured row: values keyed by column name, in schema order. -/
abbrev Row := List (ColName × CellVal)

/-- Extract the value of column `c` from a structured row, with a junk
default for a column absent from the row (never reached on rows that
conform to the schema guarding the lookup). -/
def rowGetD (r : Row) (c : ColName) : CellVal :=
  (((r.find? (fun q => q.1 == c)).map Prod.snd)).getD (CellVal.nval 0)

/-- Extract one column from a list of structured rows. -/
def colVals (rows : List Row) (c : ColName) : List CellVal :=
  rows.map (fun r => rowGetD r c)

/-- Ceiling division on naturals: `ceilDiv a b = ⌈a / b⌉` for `b ≥ 1`. -/
def ceilDiv (a b : Nat) : Nat := (a + b - 1) / b

/-- Ceiling division with an integer numerator (used only to state what a
caller would expect from `ceil((stop-start)/step)` on possibly negative
bounds). -/
def intCeilDiv (a : Int) (b : Nat) : Int := Int.ediv (a + b - 1) b

/-- The row indices hit by a strided range request: all `i < stop` with
`start ≤ i` and `i ≡ start (mod step)`, in increasing order. -/
def hitIdx (start stop istep : Nat) : List Nat :=
  (List.range stop).filter (fun i => start ≤ i && (i - start) % istep == 0)

/-- In-memory strided slice `l[start:stop:istep]` for natural bounds
(indices past the end of `l` contribute nothing). -/
def strided (l : List α) (start stop istep : Nat) : List α :=
  (hitIdx start stop istep).filterMap (fun i => l[i]?)

/-- Strided selection out of a buffer `l` whose first element has global
index `o`: the elements at local indices `j` whose global index `o + j`
lies in `[start, stop)` and is congruent to `start` modulo the step, in
local order. -/
def stridedAt (l : List α) (o start stop istep : Nat) : List α :=
  ((List.range l.length).filter
      (fun j => start ≤ o + j && o + j < stop && (o + j - start) % istep == 0)).filterMap
    (fun j => l[j]?)

/-- Python index clamping for a slice bound on a sequence of length `len`:
a negative bound counts from the end, a nonnegative bound is capped at
`len`. -/
def pyClamp (len : Nat) (i : Int) : Nat :=
  if i < 0 then (i + len).toNat else min i.toNat len

/-- Python extended-slice semantics `l[start:stop:istep]` for integer bounds
and positive step, as performed by `numpy` on one axis. -/
def pySlice (l : List α) (start stop : Int) (istep : Nat) : List α :=
  strided l (pyClamp l.length start) (pyClamp l.length stop) istep

/-- The error taxonomy of the specification (§7). -/
inductive IOErr where
  | configurationError
  | schemaError
  | formatError
  | rangeError
deriving DecidableEq

/-- Modelled from the spec: a format adapter (`nbodykit.io.base.FileType`,
not shipped in the repository) wraps one physical file and exposes a schema
and the structured rows it stores (§3, §4.1). -/
structure Adapter where
  schema : Schema
  rows : List Row
deriving DecidableEq

/-- Total row count of an adapter. -/
def Adapter.size (a : Adapter) : Nat := a.rows.length

/-- Modelled from the spec: the adapter-level range read (§4.1) with its
precondition `0 ≤ start ≤ stop ≤ size`, `step ≥ 1`; a violation is a
`RangeError` raised at read time (§7).  The returned buffer holds the
structured rows; column extraction happens in the dataset source. -/
def Adapter.read (a : Adapter) (columns : List ColName) (start stop istep : Nat) :
    Except IOErr (List Row) :=
  if start ≤ stop ∧ stop ≤ a.size ∧ 1 ≤ istep then
    .ok (strided a.rows start stop istep)
  else
    .error .rangeError

/-- Modelled from the spec: a multi-file stack is an ordered list of member
adapters sharing one schema (§3, §4.2). -/
structure Stack where
  members : List Adapter
deriving DecidableEq

/-- All rows of the stack, member rows concatenated in member order. -/
def Stack.allRows (s : Stack) : List Row :=
  (s.members.map Adapter.rows).flatten

/-- Global size of the stack. -/
def Stack.size (s : Stack) : Nat := s.allRows.length

/-- The common schema (that of the first member). -/
def Stack.schema (s : Stack) : Schema :=
  match s.members with
  | [] => []
  | m :: _ => m.schema

/-- Modelled from the spec: atomic stack construction — an empty member
list is a `ConfigurationError`, a schema mismatch across members is a
`SchemaError`, otherwise the stack holds exactly the given members (§4.2,
§7). -/
def mkStack (ms : List Adapter) : Except IOErr Stack :=
  match ms with
  | [] => .error .configurationError
  | m :: rest =>
      if rest.all (fun a => a.schema == m.schema) then
        .ok ⟨m :: rest⟩
      else
        .error .schemaError

/-- The rows member `m` (whose rows start at global offset `o`) contributes
to a global strided request: its local indices `j` whose global index
`o + j` lies in `[start, stop)` and is congruent to `start` modulo the
step, read in local order. -/
def memberPart (m : Adapter) (o start stop istep : Nat) : List Row :=
  stridedAt m.rows o start stop istep

/-- Modelled from the spec: iterate over the members in order, issuing the
member-local reads that service a global strided request, keeping the step
phase in the global index space (§4.2). -/
def stackReadAux (ms : List Adapter) (o start stop istep : Nat) : List Row :=
  match ms with
  | [] => []
  | m :: rest =>
      memberPart m o start stop istep ++ stackReadAux rest (o + m.size) start stop istep

/-- Modelled from the spec: the stack-level range read, validating the
range against the global size and concatenating member-local reads in
member order (§4.2). -/
def Stack.read (s : Stack) (columns : List ColName) (start stop istep : Nat) :
    Except IOErr (List Row) :=
  if start ≤ stop ∧ stop ≤ s.size ∧ 1 ≤ istep then
    .ok (stackReadAux s.members 0 start stop istep)
  else
    .error .rangeError

/-- Modelled from the spec: map a global row index to
`(member index, local index)` by walking the member sizes — the
specification's cumulative-offset lookup (§3). -/
def findMember (sizes : List Nat) (i : Nat) : Nat × Nat :=
  match sizes with
  | [] => (0, i)
  | n :: rest =>
      if i < n then (0, i)
      else
        let p := findMember rest (i - n)
        (p.1 + 1, p.2)

/-- The synthesized default column names (§6). -/
def defaultNames : List ColName := ["Selection", "Weight", "Value"]

/-- Modelled from the spec: the buffer a default column materializes for a
request of `n` rows — all-true for `Selection`, the constant `1.0` for
`Weight` and `Value` (§6). -/
def defaultVal (c : ColName) (n : Nat) : List CellVal :=
  if c == "Selection" then List.replicate n (CellVal.bval true)
  else List.replicate n (CellVal.nval 1)

/-- Modelled from the spec: the user-facing dataset source wraps one stack
(§4.3). -/
structure DatasetSource where
  stack : Stack
deriving DecidableEq

/-- Global size of the dataset source. -/
def DatasetSource.size (d : DatasetSource) : Nat := d.stack.size

/-- Modelled from the spec: the exposed column names — the union of the
stack schema's names and the default names, deduplicated (§4.3). -/
def DatasetSource.columns (d : DatasetSource) : List ColName :=
  ((d.stack.schema.map Prod.fst) ++ defaultNames).dedup

/-- Modelled from the spec: the per-column dataset read — a file-backed
column delegates to the stack (so a file-provided column shadows a
same-named default), a default column synthesizes its buffer without
touching any file, and an invalid range is a `RangeError` (§4.3, §7). -/
def DatasetSource.readCol (d : DatasetSource) (c : ColName) (start stop istep : Nat) :
    Except IOErr (List CellVal) :=
  if start ≤ stop ∧ stop ≤ d.size ∧ 1 ≤ istep then
    if c ∈ d.stack.schema.map Prod.fst then
      (d.stack.read [c] start stop istep).map (fun rows => colVals rows c)
    else if c ∈ defaultNames then
      .ok (defaultVal c (ceilDiv (stop - start) istep))
    else
      .error .formatError
  else
    .error .rangeError

/-- Lexicographic comparison of character lists by code point. -/
def lexLe : List Char → List Char → Bool
  | [], _ => true
  | _ :: _, [] => false
  | a :: as, b :: bs =>
      if a.toNat = b.toNat then lexLe as bs
      else decide (a.toNat < b.toNat)

/-- Lexicographic order on paths. -/
def pathLe (a b : String) : Bool := lexLe a.data b.data

/-- Insert a path into a `pathLe`-sorted list, keeping it sorted. -/
def insertLe (x : String) : List String → List String
  | [] => [x]
  | y :: ys => if pathLe x y then x :: y :: ys else y :: insertLe x ys

/-- Modelled from the spec: sort resolved paths lexicographically (§6); an
insertion sort, extensionally the sorted-order enumeration. -/
def sortPaths : List String → List String
  | [] => []
  | x :: xs => insertLe x (sortPaths xs)

/-- Fuel-bounded wildcard matcher: `*` matches any (possibly empty) run of
characters, any other pattern character matches itself.  The fuel only
bounds the recursion depth; `globMatch` supplies enough for the match to be
decided. -/
def globMatchFuel : Nat → List Char → List Char → Bool
  | 0, _, _ => false
  | _ + 1, [], cs => cs.isEmpty
  | fuel + 1, p :: ps, cs =>
      if p == '*' then
        globMatchFuel fuel ps cs ||
          (match cs with
           | [] => false
           | _ :: cs2 => globMatchFuel fuel (p :: ps) cs2)
      else
        match cs with
        | [] => false
        | c :: cs2 => p == c && globMatchFuel fuel ps cs2

/-- Modelled from the spec: glob pattern matching for wildcard path
specifications (§6). -/
def globMatch (pat path : String) : Bool :=
  globMatchFuel (pat.length + path.length + 1) pat.data path.data

/-- Does the path specification contain a wildcard character? -/
def hasWild (pat : String) : Bool := pat.data.contains '*'

/-- A path specification: an explicit ordered list of paths, or a single
string that is globbed when it contains a wildcard (§6). -/
inductive PathSpec where
  | explicitList : List String → PathSpec
  | single : String → PathSpec

/-- Modelled from the spec: resolve a path specification against the
available file names — an explicit list is used in the given order, a
wildcard pattern is expanded to the matching paths sorted
lexicographically, and a plain path names itself (§6). -/
def resolvePathSpec (avail : List String) : PathSpec → List String
  | .explicitList ps => ps
  | .single p =>
      if hasWild p then sortPaths (avail.filter (fun q => globMatch p q))
      else [p]

/-- A model of the directory contents: each file name with the adapter its
format reader produces. -/
abbrev FileSys := List (String × Adapter)

/-- Open one file through its format adapter. -/
def lookupFile (fs : FileSys) (p : String) : Option Adapter :=
  (fs.find? (fun q => q.1 == p)).map Prod.snd

/-- Collect a list of optional results, failing if any is missing. -/
def seqOpt : List (Option α) → Option (List α)
  | [] => some []
  | o :: os => o.bind (fun a => (seqOpt os).map (fun as => a :: as))

/-- Modelled from the spec: construct a stack from a path specification —
resolve the paths, open every member adapter, and validate the member list
atomically (§4.2). -/
def mkStackFromSpec (fs : FileSys) (p : PathSpec) : Except IOErr Stack :=
  match seqOpt ((resolvePathSpec (fs.map Prod.fst) p).map (lookupFile fs)) with
  | none => .error .formatError
  | some ms => mkStack ms

/-- The contents of the `.npy` files on disk: path, dtype and stored rows,
as `numpy.load` would return them. -/
abbrev NpyDisk := List (String × (Schema × List Row))

/-- `numpy.load(path)`: the stored array (dtype and rows) of a `.npy`
file. -/
def numpyLoad (disk : NpyDisk) (path : String) : Option (Schema × List Row) :=
  (disk.find? (fun q => q.1 == path)).map Prod.snd

/-- The `NPYFile` adapter from the notebook's custom-format section: its
`__init__` stores the loaded array in `_data` and sets `size` and `dtype`
from it; `attrs` starts empty. -/
structure NPYFile where
  path : String
  attrs : List (String × String)
  _data : List Row
  size : Nat
  dtype : Schema
deriving DecidableEq

/-- `NPYFile.__init__`: load the array at `path` and record `size` and
`dtype`. -/
def NPYFile.init (disk : NpyDisk) (path : String) : Option NPYFile :=
  (numpyLoad disk path).map (fun d => ⟨path, [], d.2, d.2.length, d.1⟩)

/-- `NPYFile.read(columns, start, stop, step)`: returns
`self._data[start:stop:step]` — the Python slice of the full structured
array, regardless of `columns`. -/
def NPYFile.read (f : NPYFile) (columns : List ColName) (start stop : Int) (istep : Nat) :
    List Row :=
  pySlice f._data start stop istep

/-- One adapter-level read request. -/
structure ReadReq where
  columns : List ColName
  start : Nat
  stop : Nat
  istep : Nat

/-- One `NPYFile`-level read request (Python integer bounds). -/
structure NpyReq where
  columns : List ColName
  start : Int
  stop : Int
  istep : Nat

/-- A read call as a state transition on the adapter: the result together
with the adapter state after the call (the modelled read assigns no
attribute, matching the specification's read-only lifecycle). -/
def Adapter.readSt (a : Adapter) (q : ReadReq) : Except IOErr (List Row) × Adapter :=
  (a.read q.columns q.start q.stop q.istep, a)

/-- Run a sequence of adapter reads, threading the adapter state. -/
def runReads (a : Adapter) : List ReadReq → List (Except IOErr (List Row)) × Adapter
  | [] => ([], a)
  | q :: qs =>
      let r := a.readSt q
      let rest := runReads r.2 qs
      (r.1 :: rest.1, rest.2)

/-- A `NPYFile.read` call as a state transition: the notebook's `read`
method only evaluates `self._data[start:stop:step]` and assigns nothing. -/
def NPYFile.readSt (f : NPYFile) (q : NpyReq) : List Row × NPYFile :=
  (f.read q.columns q.start q.stop q.istep, f)

/-- Run a sequence of `NPYFile` reads, threading the file state. -/
def runNpyReads (f : NPYFile) : List NpyReq → List (List Row) × NPYFile
  | [] => ([], f)
  | q :: qs =>
      let r := f.readSt q
      let rest := runNpyReads r.2 qs
      (r.1 :: rest.1, rest.2)

/-- Concrete fixture rows for evaluating witnesses. -/
def rowA : Row := [("Mass", CellVal.nval 3), ("Weight", CellVal.nval 2)]

def rowB : Row := [("Mass", CellVal.nval 5), ("Weight", CellVal.nval 7)]

def rowC : Row := [("Mass", CellVal.nval 11), ("Weight", CellVal.nval 13)]

/-- Concrete fixture schema for evaluating witnesses. -/
def exSchema : Schema := [("Mass", ("f8", 1)), ("Weight", ("f8", 1))]

def exA1 : Adapter := ⟨exSchema, [rowA, rowB]⟩

def exA2 : Adapter := ⟨exSchema, [rowC]⟩

def exStack : Stack := ⟨[exA1, exA2]⟩

def exDS : DatasetSource := ⟨exStack⟩

/-- Fixture with 40 rows, matching the notebook multi-file example. -/
def exA40 : Adapter := ⟨exSchema, List.replicate 40 rowA⟩

/-- Fixture with 60 rows, matching the notebook multi-file example. -/
def exA60 : Adapter := ⟨exSchema, List.replicate 60 rowB⟩

def exStack100 : Stack := ⟨[exA40, exA60]⟩

/-- Fixture `NPYFile` instance over four stored rows. -/
def exNpy : NPYFile := ⟨"npy-example.npy", [], [rowA, rowB, rowC, rowA], 4, exSchema⟩


lemma ceilDivZero (s : Nat) : ceilDiv 0 s = 0 := by
  unfold ceilDiv
  rcases s with _ | s
  · rfl
  · exact Nat.div_eq_of_lt (by omega)

lemma ceilDivSucc (d s : Nat) (hs : 1 ≤ s) : ceilDiv (d + 1) s = d / s + 1 := by
  unfold ceilDiv
  have h : d + 1 + s - 1 = d + s := by omega
  rw [h, Nat.add_div_right _ hs]

lemma ceilDivModZero (d s : Nat) (hs : 1 ≤ s) (h : d % s = 0) :
    ceilDiv d s = d / s := by
  obtain ⟨q, rfl⟩ := Nat.dvd_of_mod_eq_zero h
  unfold ceilDiv
  have h1 : s * q + s - 1 = s * q + (s - 1) := by omega
  rw [h1, Nat.mul_add_div (show 0 < s by omega),
    Nat.div_eq_of_lt (show s - 1 < s by omega),
    Nat.mul_div_cancel_left q (show 0 < s by omega)]
  omega

lemma ceilDivModPos (d s : Nat) (hs : 1 ≤ s) (h : d % s ≠ 0) :
    ceilDiv d s = d / s + 1 := by
  have hdm := Nat.div_add_mod d s
  have hr1 : 1 ≤ d % s := Nat.one_le_iff_ne_zero.mpr h
  have hrs : d % s < s := Nat.mod_lt _ (by omega)
  unfold ceilDiv
  have h1 : d + s - 1 = s * (d / s) + (d % s - 1 + s) := by omega
  rw [h1, Nat.mul_add_div (show 0 < s by omega),
    Nat.add_div_right _ (show 0 < s by omega),
    Nat.div_eq_of_lt (show d % s - 1 < s by omega)]

lemma ltCeilDivMul (d s k : Nat) (hs : 1 ≤ s) (hk : k < ceilDiv d s) :
    k * s < d := by
  unfold ceilDiv at hk
  have h1 : (k + 1) * s ≤ d + s - 1 :=
    (Nat.le_div_iff_mul_le (show 0 < s by omega)).mp hk
  have h2 : (k + 1) * s = k * s + s := by ring
  rw [h2] at h1
  generalize k * s = m at h1 ⊢
  omega

lemma hitIdxEqMap (start stop istep : Nat) (hs : 1 ≤ istep) :
    hitIdx start stop istep =
      (List.range (ceilDiv (stop - start) istep)).map (fun k => start + k * istep) := by
  induction stop with
  | zero =>
      simp [hitIdx, ceilDivZero]
  | succ n ih =>
      unfold hitIdx at ih ⊢
      rw [List.range_succ, List.filter_append, ih, List.filter_singleton]
      by_cases hA : start ≤ n ∧ (n - start) % istep = 0
      · have hp : (decide (start ≤ n) && (n - start) % istep == 0) = true := by
          simp [hA.1, hA.2]
        rw [hp]
        have hd : n + 1 - start = (n - start) + 1 := by omega
        have hc : ceilDiv (n - start) istep = (n - start) / istep :=
          ceilDivModZero _ _ hs hA.2
        have hn : start + (n - start) / istep * istep = n := by
          have := Nat.div_mul_cancel (Nat.dvd_of_mod_eq_zero hA.2)
          omega
        rw [hd, ceilDivSucc _ _ hs, List.range_succ, List.map_append, hc]
        simp [hn]
      · have hp : (decide (start ≤ n) && (n - start) % istep == 0) = false := by
          rcases Decidable.not_and_iff_or_not.mp hA with h | h
          · simp [h]
          · simp only [Bool.and_eq_false_iff]
            right
            simpa using h
        rw [hp]
        have hceq : ceilDiv (n + 1 - start) istep = ceilDiv (n - start) istep := by
          by_cases hsn : start ≤ n
          · have hmod : (n - start) % istep ≠ 0 := by tauto
            have hd : n + 1 - start = (n - start) + 1 := by omega
            rw [hd, ceilDivSucc _ _ hs, ceilDivModPos _ _ hs hmod]
          · have h2 : n - start = 0 := by omega
            have h1 : n + 1 - start = 0 := by omega
            rw [h1, h2]
        rw [hceq]
        simp

lemma memHitIdxLt (start stop istep i : Nat) (h : i ∈ hitIdx start stop istep) :
    i < stop :=
  List.mem_range.mp (List.mem_filter.mp h).1

lemma filterMapLenAllSome (l : List α) (f : α → Option β)
    (h : ∀ a ∈ l, (f a).isSome) : (l.filterMap f).length = l.length := by
  induction l with
  | nil => rfl
  | cons a as ih =>
      obtain ⟨b, hb⟩ := Option.isSome_iff_exists.mp (h a (by simp))
      rw [List.filterMap_cons, hb]
      simp only [List.length_cons]
      rw [ih (fun x hx => h x (by simp [hx]))]

lemma lengthStrided (l : List α) (start stop istep : Nat) (hs : 1 ≤ istep)
    (hstop : stop ≤ l.length) :
    (strided l start stop istep).length = ceilDiv (stop - start) istep := by
  unfold strided
  rw [filterMapLenAllSome]
  · rw [hitIdxEqMap _ _ _ hs, List.length_map, List.length_range]
  · intro i hi
    have h1 : i < stop := memHitIdxLt _ _ _ _ hi
    have h2 : i < l.length := by omega
    simp [List.getElem?_eq_getElem h2]

lemma stridedAtAppend (a b : List α) (o start stop istep : Nat) :
    stridedAt (a ++ b) o start stop istep =
      stridedAt a o start stop istep ++ stridedAt b (o + a.length) start stop istep := by
  unfold stridedAt
  rw [List.length_append, List.range_add, List.filter_append, List.filterMap_append]
  congr 1
  · apply List.filterMap_congr
    intro j hj
    have hjlt : j < a.length := List.mem_range.mp (List.mem_filter.mp hj).1
    rw [List.getElem?_append_left hjlt]
  · rw [List.filter_map, List.filterMap_map]
    have hpred : ∀ j ∈ List.range b.length,
        ((fun j => decide (start ≤ o + j) && decide (o + j < stop) &&
            ((o + j - start) % istep == 0)) ∘ fun x => a.length + x) j =
          (fun j => decide (start ≤ o + a.length + j) && decide (o + a.length + j < stop) &&
            ((o + a.length + j - start) % istep == 0)) j := by
      intro j _
      simp only [Function.comp]
      have h : o + (a.length + j) = o + a.length + j := by omega
      rw [h]
    rw [List.filter_congr hpred]
    apply List.filterMap_congr
    intro j _
    simp only [Function.comp]
    have hget : (a ++ b)[a.length + j]? = b[j]? := by
      rw [List.getElem?_append_right (by omega)]
      congr 1
      omega
    exact hget

lemma stackReadAuxEq (ms : List Adapter) (o start stop istep : Nat) :
    stackReadAux ms o start stop istep =
      stridedAt ((ms.map Adapter.rows).flatten) o start stop istep := by
  induction ms generalizing o with
  | nil =>
      simp [stackReadAux, stridedAt]
  | cons m rest ih =>
      rw [stackReadAux, List.map_cons, List.flatten_cons, stridedAtAppend, ih]
      rfl

lemma stridedAtZero (l : List α) (start stop istep : Nat) (hstop : stop ≤ l.length) :
    stridedAt l 0 start stop istep = strided l start stop istep := by
  unfold stridedAt strided hitIdx
  have hsplit : l.length = stop + (l.length - stop) := by omega
  rw [hsplit, List.range_add, List.filter_append, List.filterMap_append]
  have h2 : (List.filter (fun j => decide (start ≤ 0 + j) && decide (0 + j < stop) &&
      (0 + j - start) % istep == 0) ((List.range (l.length - stop)).map fun x => stop + x)) = [] := by
    rw [List.filter_map]
    have : List.filter ((fun j => decide (start ≤ 0 + j) && decide (0 + j < stop) &&
        (0 + j - start) % istep == 0) ∘ fun x => stop + x) (List.range (l.length - stop)) = [] := by
      apply List.filter_eq_nil_iff.mpr
      intro x hx
      simp only [Function.comp]
      have : ¬ (0 + (stop + x) < stop) := by omega
      simp [this]
    rw [this, List.map_nil]
  rw [h2, List.filterMap_nil, List.append_nil]
  congr 1
  apply List.filter_congr
  intro j hj
  have hjlt : j < stop := List.mem_range.mp hj
  simp only [Nat.zero_add]
  simp [hjlt]

lemma stridedMap (l : List α) (f : α → β) (start stop istep : Nat) :
    (strided l start stop istep).map f = strided (l.map f) start stop istep := by
  unfold strided
  rw [List.map_filterMap]
  apply List.filterMap_congr
  intro i _
  rw [List.getElem?_map]

lemma filterMapGetRange (l : List α) :
    (List.range l.length).filterMap (fun i => l[i]?) = l := by
  induction l with
  | nil => rfl
  | cons a as ih =>
      rw [List.length_cons, List.range_succ_eq_map, List.filterMap_cons, List.filterMap_map]
      rw [List.getElem?_cons_zero]
      have : ((fun i => (a :: as)[i]?) ∘ Nat.succ) = fun i => as[i]? := by
        funext i
        simp [Function.comp, List.getElem?_cons_succ]
      rw [this, ih]

lemma stridedFull (l : List α) : strided l 0 l.length 1 = l := by
  unfold strided
  rw [hitIdxEqMap _ _ _ (by omega)]
  have h1 : ceilDiv (l.length - 0) 1 = l.length := by
    unfold ceilDiv
    omega
  rw [h1]
  have h2 : (List.map (fun k => 0 + k * 1) (List.range l.length)) = List.range l.length := by
    apply List.map_id''
    intro x
    omega
  rw [h2, filterMapGetRange]

lemma stridedReplicate (n : Nat) (x : α) (start stop istep : Nat) (hs : 1 ≤ istep)
    (hstop : stop ≤ n) :
    strided (List.replicate n x) start stop istep =
      List.replicate (ceilDiv (stop - start) istep) x := by
  unfold strided
  rw [hitIdxEqMap _ _ _ hs, List.filterMap_map]
  have h1 : ∀ k ∈ List.range (ceilDiv (stop - start) istep),
      ((fun i => (List.replicate n x)[i]?) ∘ fun k => start + k * istep) k = some x := by
    intro k hk
    have hk2 : k * istep < stop - start := ltCeilDivMul _ _ _ hs (List.mem_range.mp hk)
    have hlt : start + k * istep < n := by omega
    simp [Function.comp, List.getElem?_replicate, hlt]
  rw [List.filterMap_congr h1]
  have h2 : List.filterMap (fun _ => some x) (List.range (ceilDiv (stop - start) istep)) =
      List.map (fun _ => x) (List.range (ceilDiv (stop - start) istep)) := by
    rw [← List.filterMap_eq_map]
    rfl
  rw [h2, List.map_const', List.length_range]

lemma stackSizeSum (s : Stack) : s.size = (s.members.map Adapter.size).sum := by
  unfold Stack.size Stack.allRows
  rw [List.length_flatten, List.map_map]
  rfl

lemma findMemberSpec (ms : List Adapter) (i : Nat)
    (h : i < ((ms.map Adapter.rows).flatten).length) :
    ∃ m, ms[(findMember (ms.map Adapter.size) i).1]? = some m ∧
      (findMember (ms.map Adapter.size) i).2 < m.size ∧
      ((ms.map Adapter.rows).flatten)[i]? = m.rows[(findMember (ms.map Adapter.size) i).2]? := by
  induction ms generalizing i with
  | nil =>
      simp at h
  | cons m rest ih =>
      have hlen : m.rows.length = m.size := rfl
      simp only [List.map_cons, List.flatten_cons, List.length_append] at h
      by_cases hlt : i < m.size
      · refine ⟨m, ?_, ?_, ?_⟩
        · simp [findMember, hlt]
        · simp [findMember, hlt]
        · simp only [List.map_cons, List.flatten_cons, findMember, hlt, if_pos]
          exact List.getElem?_append_left hlt
      · obtain ⟨mm, hm1, hm2, hm3⟩ := ih (i - m.size) (by omega)
        refine ⟨mm, ?_, ?_, ?_⟩
        · simp only [List.map_cons, findMember, hlt, if_false, if_neg, not_false_iff]
          simpa [List.getElem?_cons_succ] using hm1
        · simp only [List.map_cons, findMember, hlt, if_false, if_neg, not_false_iff]
          simpa using hm2
        · simp only [List.map_cons, List.flatten_cons, findMember, hlt, if_false, if_neg,
            not_false_iff]
          rw [List.getElem?_append_right (by omega)]
          rw [hlen]
          simpa using hm3

lemma hitIdxSingle (i : Nat) : hitIdx i (i + 1) 1 = [i] := by
  rw [hitIdxEqMap _ _ _ (by omega)]
  have h1 : ceilDiv (i + 1 - i) 1 = 1 := by
    unfold ceilDiv
    omega
  rw [h1]
  have h2 : List.range 1 = [0] := rfl
  rw [h2]
  simp

lemma stridedSingle (l : List α) (i : Nat) (h : i < l.length) :
    strided l i (i + 1) 1 = [l.get ⟨i, h⟩] := by
  unfold strided
  rw [hitIdxSingle]
  simp [List.getElem?_eq_getElem h]

lemma lexLeTotal (a b : List Char) : lexLe a b = true ∨ lexLe b a = true := by
  induction a generalizing b with
  | nil => left; rfl
  | cons x xs ih =>
      cases b with
      | nil => right; rfl
      | cons y ys =>
          unfold lexLe
          by_cases hxy : x.toNat = y.toNat
          · rw [if_pos hxy, if_pos hxy.symm]
            exact ih ys
          · rw [if_neg hxy, if_neg (fun h => hxy h.symm)]
            rcases Nat.lt_or_ge x.toNat y.toNat with h | h
            · left; simpa using h
            · right
              have : y.toNat < x.toNat := by omega
              simpa using this

lemma lexLeTrans (a b c : List Char) (hab : lexLe a b = true) (hbc : lexLe b c = true) :
    lexLe a c = true := by
  induction a generalizing b c with
  | nil => rfl
  | cons x xs ih =>
      cases b with
      | nil => simp [lexLe] at hab
      | cons y ys =>
          cases c with
          | nil => simp [lexLe] at hbc
          | cons z zs =>
              unfold lexLe at hab hbc ⊢
              by_cases hxy : x.toNat = y.toNat
              · rw [if_pos hxy] at hab
                by_cases hyz : y.toNat = z.toNat
                · rw [if_pos hyz] at hbc
                  rw [if_pos (hxy.trans hyz)]
                  exact ih ys zs hab hbc
                · rw [if_neg hyz] at hbc
                  have hlt : y.toNat < z.toNat := by simpa using hbc
                  have hxz : x.toNat ≠ z.toNat := by omega
                  rw [if_neg hxz]
                  simp only [decide_eq_true_eq]
                  omega
              · rw [if_neg hxy] at hab
                have hlt : x.toNat < y.toNat := by simpa using hab
                by_cases hyz : y.toNat = z.toNat
                · rw [if_pos hyz] at hbc
                  have hxz : x.toNat ≠ z.toNat := by omega
                  rw [if_neg hxz]
                  simp only [decide_eq_true_eq]
                  omega
                · rw [if_neg hyz] at hbc
                  have hlt2 : y.toNat < z.toNat := by simpa using hbc
                  have hxz : x.toNat ≠ z.toNat := by omega
                  rw [if_neg hxz]
                  simp only [decide_eq_true_eq]
                  omega

lemma pathLeTotal (a b : String) : pathLe a b = true ∨ pathLe b a = true :=
  lexLeTotal a.data b.data

lemma pathLeTrans (a b c : String) (hab : pathLe a b = true) (hbc : pathLe b c = true) :
    pathLe a c = true :=
  lexLeTrans a.data b.data c.data hab hbc

lemma insertLePerm (x : String) (l : List String) : (insertLe x l).Perm (x :: l) := by
  induction l with
  | nil => exact List.Perm.refl _
  | cons y ys ih =>
      unfold insertLe
      by_cases h : pathLe x y = true
      · rw [if_pos h]
      · rw [if_neg h]
        exact (ih.cons y).trans (List.Perm.swap x y ys)

lemma insertLeSorted (x : String) (l : List String)
    (hl : l.Pairwise (fun a b => pathLe a b = true)) :
    (insertLe x l).Pairwise (fun a b => pathLe a b = true) := by
  induction l with
  | nil => simp [insertLe]
  | cons y ys ih =>
      unfold insertLe
      rcases List.pairwise_cons.mp hl with ⟨hy, hys⟩
      by_cases h : pathLe x y = true
      · rw [if_pos h]
        refine List.pairwise_cons.mpr ⟨?_, hl⟩
        intro b hb
        rcases hb with _ | hb
        · exact h
        · exact pathLeTrans _ _ _ h (hy _ (by assumption))
      · rw [if_neg h]
        have hyx : pathLe y x = true := by
          rcases pathLeTotal x y with h2 | h2
          · exact absurd h2 h
          · exact h2
        refine List.pairwise_cons.mpr ⟨?_, ih hys⟩
        intro b hb
        have hb2 := (insertLePerm x ys).mem_iff.mp hb
        rcases List.mem_cons.mp hb2 with hb3 | hb3
        · subst hb3; exact hyx
        · exact hy _ hb3

lemma sortPathsSorted (l : List String) :
    (sortPaths l).Pairwise (fun a b => pathLe a b = true) := by
  induction l with
  | nil => simp [sortPaths]
  | cons x xs ih => exact insertLeSorted x _ ih

lemma sortPathsPerm (l : List String) : (sortPaths l).Perm l := by
  induction l with
  | nil => exact List.Perm.refl _
  | cons x xs ih =>
      unfold sortPaths
      exact (insertLePerm x (sortPaths xs)).trans (ih.cons x)

lemma seqOptSome (l : List (Option α)) (r : List α) (h : seqOpt l = some r) :
    l = r.map some := by
  induction l generalizing r with
  | nil =>
      cases h
      rfl
  | cons o os ih =>
      cases o with
      | none => simp [seqOpt] at h
      | some a =>
          cases hrec : seqOpt os with
          | none => simp [seqOpt, hrec] at h
          | some as =>
              simp only [seqOpt, hrec] at h
              simp at h
              rw [← h, List.map_cons, ih as hrec]

lemma stackReadOk (s : Stack) (cols : List ColName) (start stop istep : Nat)
    (h1 : start ≤ stop) (h2 : stop ≤ s.size) (h3 : 1 ≤ istep) :
    s.read cols start stop istep = .ok (strided s.allRows start stop istep) := by
  unfold Stack.read
  rw [if_pos ⟨h1, h2, h3⟩, stackReadAuxEq]
  have hall : (List.map Adapter.rows s.members).flatten = s.allRows := rfl
  rw [hall, stridedAtZero _ _ _ _ h2]

lemma stridedLenStack (s : Stack) (start stop istep : Nat) (hs : 1 ≤ istep)
    (hstop : stop ≤ s.size) :
    (strided s.allRows start stop istep).length = ceilDiv (stop - start) istep :=
  lengthStrided _ _ _ _ hs hstop

/-- C7: for every valid stack read, the step is applied over the global
index space: the rows returned are exactly the rows at global indices
`start, start + step, start + 2*step, …` below `stop`, so a row inside a
member's range is skipped whenever its global index is out of phase, even
when the request spans that member. -/
theorem c7_stack_step_global (s : Stack) (cols : List ColName) (start stop istep : Nat)
    (h1 : start ≤ stop) (h2 : stop ≤ s.size) (h3 : 1 ≤ istep) :
    s.read cols start stop istep =
      .ok (((List.range (ceilDiv (stop - start) istep)).map
          (fun k => start + k * istep)).filterMap (fun i => s.allRows[i]?)) := by
  rw [stackReadOk _ _ _ _ _ h1 h2 h3]
  unfold strided
  rw [hitIdxEqMap _ _ _ h3]

/-- Witness for C7: a step-2 read spanning both members of the concrete
two-member stack returns the rows at global indices 0 and 2. -/
theorem c7_witness :
    exStack.read [] 0 3 2 =
      .ok (((List.range (ceilDiv (3 - 0) 2)).map
          (fun k => 0 + k * 2)).filterMap (fun i => exStack.allRows[i]?)) :=
  c7_stack_step_global exStack [] 0 3 2 (by decide) (by decide) (by decide)

/-- C2: the stack's global size equals the sum of its member sizes, and the
single row at any global index `i`, as read through the stack, equals the
single row read directly from the member and local index that the
cumulative-offset lookup assigns to `i`. -/
theorem c2_stack_size_and_index_map (s : Stack) (cols : List ColName) (i : Nat)
    (hi : i < s.size) :
    s.size = (s.members.map Adapter.size).sum ∧
    ∃ m, s.members[(findMember (s.members.map Adapter.size) i).1]? = some m ∧
      s.read cols i (i + 1) 1 =
        m.read cols (findMember (s.members.map Adapter.size) i).2
          ((findMember (s.members.map Adapter.size) i).2 + 1) 1 := by
  refine ⟨stackSizeSum s, ?_⟩
  obtain ⟨m, hm1, hm2, hm3⟩ := findMemberSpec s.members i hi
  refine ⟨m, hm1, ?_⟩
  rw [stackReadOk s cols i (i + 1) 1 (by omega) (by omega) (by omega)]
  unfold Adapter.read
  rw [if_pos ⟨by omega, by omega, by omega⟩]
  have hl : (findMember (s.members.map Adapter.size) i).2 < m.rows.length := hm2
  rw [stridedSingle s.allRows i hi, stridedSingle m.rows _ hl]
  have hg : s.allRows[i]? = m.rows[(findMember (s.members.map Adapter.size) i).2]? := hm3
  rw [List.getElem?_eq_getElem hi, List.getElem?_eq_getElem hl] at hg
  simp only [Option.some_inj] at hg
  simp [List.get_eq_getElem, hg]

/-- Witness for C2: global index 2 of the concrete two-member stack maps to
local index 0 of the second member, and both reads agree. -/
theorem c2_witness :
    exStack.size = (exStack.members.map Adapter.size).sum ∧
    ∃ m, exStack.members[(findMember (exStack.members.map Adapter.size) 2).1]? = some m ∧
      exStack.read ["Mass"] 2 (2 + 1) 1 =
        m.read ["Mass"] (findMember (exStack.members.map Adapter.size) 2).2
          ((findMember (exStack.members.map Adapter.size) 2).2 + 1) 1 :=
  c2_stack_size_and_index_map exStack ["Mass"] 2 (by decide)

lemma ceilDivOne (n : Nat) : ceilDiv n 1 = n := by
  unfold ceilDiv
  omega

lemma ceilDivMono (a b s : Nat) (h : a ≤ b) : ceilDiv a s ≤ ceilDiv b s :=
  Nat.div_le_div_right (by omega)

lemma defaultValLen (c : ColName) (n : Nat) : (defaultVal c n).length = n := by
  unfold defaultVal
  by_cases h : (c == "Selection") = true
  · rw [if_pos h, List.length_replicate]
  · rw [if_neg h, List.length_replicate]

lemma mkStackOkMembers (ms : List Adapter) (s : Stack) (h : mkStack ms = .ok s) :
    s.members = ms := by
  cases ms with
  | nil => simp [mkStack] at h
  | cons m rest =>
      have hred : mkStack (m :: rest) =
          (if (rest.all fun a => a.schema == m.schema) = true then
            Except.ok ⟨m :: rest⟩ else Except.error IOErr.schemaError) := rfl
      rw [hred] at h
      by_cases hc : (rest.all fun a => a.schema == m.schema) = true
      · rw [if_pos hc] at h
        injection h with h2
        subst h2
        rfl
      · rw [if_neg hc] at h
        simp at h

lemma runReadsEq (a : Adapter) (qs : List ReadReq) :
    runReads a qs = (qs.map (fun q => a.read q.columns q.start q.stop q.istep), a) := by
  induction qs with
  | nil => rfl
  | cons q qs ih => simp [runReads, Adapter.readSt, ih]

lemma runNpyReadsEq (f : NPYFile) (nqs : List NpyReq) :
    runNpyReads f nqs = (nqs.map (fun q => f.read q.columns q.start q.stop q.istep), f) := by
  induction nqs with
  | nil => rfl
  | cons q qs ih => simp [runNpyReads, NPYFile.readSt, ih]

/-- C6: a wildcard path specification resolves to the matching file names
sorted lexicographically; an explicit list is used in the given order; and
a stack over a 40-row member followed by a 60-row member has global size
100, a full read returning the two members' rows concatenated in member
order. -/
theorem c6_resolution_order_and_concat :
    (∀ (avail : List String) (pat : String), hasWild pat = true →
      (resolvePathSpec avail (.single pat)).Pairwise (fun a b => pathLe a b = true) ∧
      (resolvePathSpec avail (.single pat)).Perm
        (avail.filter (fun q => globMatch pat q))) ∧
    (∀ (avail ps : List String), resolvePathSpec avail (.explicitList ps) = ps) ∧
    (∀ (s : Stack) (cols : List ColName) (m₁ m₂ : Adapter),
      s.members = [m₁, m₂] → m₁.size = 40 → m₂.size = 60 →
      s.size = 100 ∧ s.read cols 0 100 1 = .ok (m₁.rows ++ m₂.rows)) := by
  refine ⟨?_, ?_, ?_⟩
  · intro avail pat hw
    have hred : resolvePathSpec avail (.single pat) =
        (if hasWild pat = true then
          sortPaths (avail.filter (fun q => globMatch pat q)) else [pat]) := rfl
    rw [hred, if_pos hw]
    exact ⟨sortPathsSorted _, sortPathsPerm _⟩
  · intro avail ps
    rfl
  · intro s cols m₁ m₂ hm h40 h60
    have hall : s.allRows = m₁.rows ++ m₂.rows := by
      unfold Stack.allRows
      rw [hm]
      simp
    have hsize : s.size = 100 := by
      unfold Stack.size
      rw [hall, List.length_append]
      have e1 : m₁.rows.length = 40 := h40
      have e2 : m₂.rows.length = 60 := h60
      omega
    refine ⟨hsize, ?_⟩
    rw [stackReadOk s cols 0 100 1 (by omega) (by omega) (by omega), hall]
    have hlen : (100 : Nat) = (m₁.rows ++ m₂.rows).length := by
      rw [List.length_append]
      have e1 : m₁.rows.length = 40 := h40
      have e2 : m₂.rows.length = 60 := h60
      omega
    rw [hlen, stridedFull]

/-- Witness for C6: a concrete wildcard resolution is sorted, a concrete
explicit list keeps its order, and the concrete 40+60-row stack has size
100 with the full read equal to the concatenation. -/
theorem c6_witness :
    (resolvePathSpec ["csv-example-2.txt", "csv-example-1.txt", "other.dat"]
        (.single "csv-example-*")).Pairwise (fun a b => pathLe a b = true) ∧
    resolvePathSpec [] (.explicitList ["b.txt", "a.txt"]) = ["b.txt", "a.txt"] ∧
    exStack100.size = 100 ∧
    exStack100.read [] 0 100 1 = .ok (exA40.rows ++ exA60.rows) := by
  refine ⟨?_, ?_, ?_⟩
  · exact (c6_resolution_order_and_concat.1 _ _ (by decide)).1
  · exact c6_resolution_order_and_concat.2.1 _ _
  · exact c6_resolution_order_and_concat.2.2 exStack100 [] exA40 exA60 rfl (by decide) (by decide)

/-- C4: resolving a path specification to zero paths makes stack
construction fail with `ConfigurationError`; members with differing
schemas make it fail with `SchemaError`; and construction is atomic — a
successful stack holds exactly the adapters of all resolved paths, and a
failure constructs no stack. -/
theorem c4_construction_errors_atomic :
    (∀ (fs : FileSys) (p : PathSpec),
      resolvePathSpec (fs.map Prod.fst) p = [] →
      mkStackFromSpec fs p = .error .configurationError) ∧
    (∀ (m : Adapter) (rest : List Adapter),
      (∃ a ∈ rest, a.schema ≠ m.schema) →
      mkStack (m :: rest) = .error .schemaError) ∧
    (∀ (ms : List Adapter) (s : Stack), mkStack ms = .ok s → s.members = ms) ∧
    (∀ (fs : FileSys) (p : PathSpec) (s : Stack),
      mkStackFromSpec fs p = .ok s →
      (resolvePathSpec (fs.map Prod.fst) p).map (lookupFile fs) = s.members.map some) := by
  refine ⟨?_, ?_, ?_, ?_⟩
  · intro fs p h
    unfold mkStackFromSpec
    rw [h]
    rfl
  · intro m rest ⟨a, ha, hne⟩
    have hall : (rest.all fun x => x.schema == m.schema) = false := by
      apply List.all_eq_false.mpr
      exact ⟨a, ha, by simpa using hne⟩
    have hred : mkStack (m :: rest) =
        (if (rest.all fun a => a.schema == m.schema) = true then
          Except.ok ⟨m :: rest⟩ else Except.error IOErr.schemaError) := rfl
    rw [hred, hall]
    rfl
  · intro ms s h
    exact mkStackOkMembers ms s h
  · intro fs p s h
    unfold mkStackFromSpec at h
    cases hseq : seqOpt ((resolvePathSpec (fs.map Prod.fst) p).map (lookupFile fs)) with
    | none => rw [hseq] at h; simp at h
    | some ms =>
        rw [hseq] at h
        rw [mkStackOkMembers ms s h]
        exact seqOptSome _ _ hseq

/-- Witness for C4: a wildcard matching no file fails with
`ConfigurationError`; a schema mismatch fails with `SchemaError`; a
successful construction holds exactly the resolved member. -/
theorem c4_witness :
    mkStackFromSpec [("a.txt", exA1)] (.single "z-*") = .error .configurationError ∧
    mkStack [exA1, Adapter.mk [] []] = .error .schemaError ∧
    (Stack.mk [exA1]).members = [exA1] ∧
    (resolvePathSpec ([("a.txt", exA1)].map Prod.fst) (.explicitList ["a.txt"])).map
        (lookupFile [("a.txt", exA1)]) = (Stack.mk [exA1]).members.map some := by
  refine ⟨?_, ?_, ?_, ?_⟩
  · exact c4_construction_errors_atomic.1 [("a.txt", exA1)] (.single "z-*") (by decide)
  · exact c4_construction_errors_atomic.2.1 exA1 [Adapter.mk [] []]
      ⟨Adapter.mk [] [], by simp, by decide⟩
  · exact c4_construction_errors_atomic.2.2.1 [exA1] (Stack.mk [exA1]) rfl
  · exact c4_construction_errors_atomic.2.2.2 [("a.txt", exA1)]
      (.explicitList ["a.txt"]) (Stack.mk [exA1]) rfl

/-- Counterexample for C5: the claim quantifies over every adapter, but the
`NPYFile` adapter shipped in the notebook violates it — a read with
`start = 5 > stop = 3` (outside the precondition) returns the empty buffer
normally instead of raising `RangeError`. -/
theorem c5_counterexample :
    ¬(5 : Nat) ≤ 3 ∧ exNpy.read ["Mass"] 5 3 1 = [] := by
  constructor
  · decide
  · decide

/-- C5 (amended): the spec-modelled core — adapter, stack and dataset
source — raises `RangeError` at read time exactly when the range
precondition `0 ≤ start ≤ stop ≤ size ∧ step ≥ 1` is violated, and never
on a valid read; the notebook's `NPYFile` custom-format example is the
exception, returning the Python-clamped slice without raising. -/
theorem c5_amended_range_error (a : Adapter) (s : Stack) (d : DatasetSource)
    (f : NPYFile) (cols : List ColName) (c : ColName) (start stop istep : Nat)
    (istart istop : Int) :
    (a.read cols start stop istep = .error .rangeError ↔
      ¬(start ≤ stop ∧ stop ≤ a.size ∧ 1 ≤ istep)) ∧
    (s.read cols start stop istep = .error .rangeError ↔
      ¬(start ≤ stop ∧ stop ≤ s.size ∧ 1 ≤ istep)) ∧
    (d.readCol c start stop istep = .error .rangeError ↔
      ¬(start ≤ stop ∧ stop ≤ d.size ∧ 1 ≤ istep)) ∧
    f.read cols istart istop istep = pySlice f._data istart istop istep := by
  refine ⟨?_, ?_, ?_, rfl⟩
  · unfold Adapter.read
    by_cases hc : start ≤ stop ∧ stop ≤ a.size ∧ 1 ≤ istep
    · rw [if_pos hc]
      simp [hc]
    · rw [if_neg hc]
      simp [hc]
  · unfold Stack.read
    by_cases hc : start ≤ stop ∧ stop ≤ s.size ∧ 1 ≤ istep
    · rw [if_pos hc]
      simp [hc]
    · rw [if_neg hc]
      simp [hc]
  · unfold DatasetSource.readCol
    by_cases hc : start ≤ stop ∧ stop ≤ d.size ∧ 1 ≤ istep
    · rw [if_pos hc]
      have hok := stackReadOk d.stack [c] start stop istep hc.1 hc.2.1 hc.2.2
      by_cases hmem : c ∈ d.stack.schema.map Prod.fst
      · rw [if_pos hmem, hok]
        simp [Except.map]
        exact ⟨hc.1, hc.2.1, by omega⟩
      · rw [if_neg hmem]
        by_cases hdef : c ∈ defaultNames
        · rw [if_pos hdef]
          simp [hc]
        · rw [if_neg hdef]
          simp [hc]
    · rw [if_neg hc]
      simp [hc]

/-- C8: reads are pure — running any sequence of read calls leaves the
adapter (and the `NPYFile` object) unchanged, its `size` and schema equal
to their post-construction values, and every read's result depends only on
its own arguments, so reads of the same range return equal results in any
order. -/
theorem c8_reads_pure (a : Adapter) (qs : List ReadReq) (f : NPYFile)
    (nqs : List NpyReq) :
    (runReads a qs).2 = a ∧
    (runReads a qs).2.size = a.size ∧
    (runReads a qs).2.schema = a.schema ∧
    (runReads a qs).1 = qs.map (fun q => a.read q.columns q.start q.stop q.istep) ∧
    (runNpyReads f nqs).2 = f ∧
    (runNpyReads f nqs).2.size = f.size ∧
    (runNpyReads f nqs).2.dtype = f.dtype ∧
    (runNpyReads f nqs).1 = nqs.map (fun q => f.read q.columns q.start q.stop q.istep) := by
  rw [runReadsEq, runNpyReadsEq]
  exact ⟨rfl, rfl, rfl, rfl, rfl, rfl, rfl, rfl⟩

/-- C9: `NPYFile.read` ignores its `columns` argument — any two column
selections return the identical buffer — and every returned row is a full
structured row of the underlying array (all columns), not a projection to
the requested columns. -/
theorem c9_npy_ignores_columns (f : NPYFile) (cols cols2 : List ColName)
    (istart istop : Int) (istep : Nat) :
    f.read cols istart istop istep = f.read cols2 istart istop istep ∧
    ∀ r, r ∈ f.read cols istart istop istep → r ∈ f._data := by
  refine ⟨rfl, ?_⟩
  intro r hr
  unfold NPYFile.read pySlice strided at hr
  obtain ⟨i, _, hi⟩ := List.mem_filterMap.mp hr
  exact List.getElem?_mem hi

/-- Witness for C9: on the concrete file, requesting `Mass` and requesting
nothing return the same buffer, and a returned row is a stored row. -/
theorem c9_witness :
    exNpy.read ["Mass"] 0 2 1 = exNpy.read [] 0 2 1 ∧ rowA ∈ exNpy._data :=
  ⟨(c9_npy_ignores_columns exNpy ["Mass"] [] 0 2 1).1,
   (c9_npy_ignores_columns exNpy ["Mass"] [] 0 2 1).2 rowA (by decide)⟩

/-- Counterexample for C10: the claim says out-of-bounds ranges are clamped
so that the call returns fewer than `ceil((stop-start)/step)` rows
(possibly zero); but a negative `stop` wraps around to the end of the
array under Python slice semantics instead of clamping — on the four-row
concrete file, `read([], 0, -1, 1)` (a `start > stop` request) returns 3
rows, not fewer than `ceil((-1-0)/1) ≤ 0`. -/
theorem c10_counterexample :
    (exNpy.read [] 0 (-1) 1).length = 3 ∧
    ¬(((exNpy.read [] 0 (-1) 1).length : Int) < intCeilDiv ((-1) - 0) 1) := by
  constructor
  · decide
  · decide

/-- C10 (amended): `NPYFile.read` is total for all integer bounds with
`step ≥ 1` (it never raises); for nonnegative `start` and `stop` the
bounds are clamped to the array length, the call returning exactly the
clamped count — at most `ceil((stop-start)/step)` rows, possibly zero —
while negative bounds index from the end of the array (Python semantics)
rather than clamping. -/
theorem c10_amended_clamped (f : NPYFile) (cols : List ColName)
    (istart istop : Int) (istep : Nat)
    (hs : 1 ≤ istep) (h0 : 0 ≤ istart) (h1 : 0 ≤ istop) :
    (f.read cols istart istop istep).length =
      ceilDiv (pyClamp f._data.length istop - pyClamp f._data.length istart) istep ∧
    (f.read cols istart istop istep).length ≤
      ceilDiv (istop.toNat - istart.toNat) istep := by
  have hc1 : pyClamp f._data.length istop ≤ f._data.length := by
    unfold pyClamp
    rw [if_neg (by omega)]
    exact Nat.min_le_right _ _
  have hlen : (f.read cols istart istop istep).length =
      ceilDiv (pyClamp f._data.length istop - pyClamp f._data.length istart) istep := by
    unfold NPYFile.read pySlice
    exact lengthStrided _ _ _ _ hs hc1
  refine ⟨hlen, ?_⟩
  rw [hlen]
  apply ceilDivMono
  unfold pyClamp
  rw [if_neg (by omega), if_neg (by omega)]
  omega

/-- Witness for C10 (amended): a stop far past the end of the four-row
concrete file is clamped, the read returning the clamped count. -/
theorem c10_witness :
    (exNpy.read [] 2 100 1).length =
      ceilDiv (pyClamp exNpy._data.length 100 - pyClamp exNpy._data.length 2) 1 ∧
    (exNpy.read [] 2 100 1).length ≤ ceilDiv ((100 : Int).toNat - (2 : Int).toNat) 1 :=
  c10_amended_clamped exNpy [] 2 100 1 (by decide) (by decide) (by decide)

/-- C3: the dataset source's columns are the deduplicated union of the
stack schema's names and the default names; a default column not supplied
by any backing file reads back as all-true (`Selection`) or the constant
1.0 (`Weight`, `Value`); and a file-supplied column of the same name
overrides the default by delegating to the stack. -/
theorem c3_default_columns (d : DatasetSource) (c w : ColName) (start stop istep : Nat)
    (h1 : start ≤ stop) (h2 : stop ≤ d.size) (h3 : 1 ≤ istep) :
    (c ∈ d.columns ↔ (c ∈ d.stack.schema.map Prod.fst ∨ c ∈ defaultNames)) ∧
    d.columns.Nodup ∧
    (("Selection" : ColName) ∉ d.stack.schema.map Prod.fst →
      d.readCol "Selection" start stop istep =
        .ok (List.replicate (ceilDiv (stop - start) istep) (CellVal.bval true))) ∧
    ((w = "Weight" ∨ w = "Value") → w ∉ d.stack.schema.map Prod.fst →
      d.readCol w start stop istep =
        .ok (List.replicate (ceilDiv (stop - start) istep) (CellVal.nval 1))) ∧
    (c ∈ d.stack.schema.map Prod.fst →
      d.readCol c start stop istep =
        (d.stack.read [c] start stop istep).map (fun rows => colVals rows c)) := by
  refine ⟨?_, ?_, ?_, ?_, ?_⟩
  · simp [DatasetSource.columns, List.mem_dedup, List.mem_append]
  · exact List.nodup_dedup _
  · intro hsel
    unfold DatasetSource.readCol
    rw [if_pos ⟨h1, h2, h3⟩, if_neg hsel,
      if_pos (show ("Selection" : ColName) ∈ defaultNames by decide)]
    rfl
  · intro hw hnot
    unfold DatasetSource.readCol
    rw [if_pos ⟨h1, h2, h3⟩, if_neg hnot]
    rcases hw with hw | hw
    · subst hw
      rw [if_pos (show ("Weight" : ColName) ∈ defaultNames by decide)]
      rfl
    · subst hw
      rw [if_pos (show ("Value" : ColName) ∈ defaultNames by decide)]
      rfl
  · intro hmem
    unfold DatasetSource.readCol
    rw [if_pos ⟨h1, h2, h3⟩, if_pos hmem]

/-- Witness for C3: on the concrete dataset (schema `Mass`, `Weight`), the
unsupplied defaults `Selection` and `Value` read back as their default
buffers, while the file-supplied `Weight` column delegates to the stack. -/
theorem c3_witness :
    exDS.readCol "Selection" 0 2 1 =
      .ok (List.replicate (ceilDiv (2 - 0) 1) (CellVal.bval true)) ∧
    exDS.readCol "Value" 0 2 1 =
      .ok (List.replicate (ceilDiv (2 - 0) 1) (CellVal.nval 1)) ∧
    exDS.readCol "Weight" 0 2 1 =
      (exDS.stack.read ["Weight"] 0 2 1).map (fun rows => colVals rows "Weight") ∧
    exDS.columns.Nodup := by
  have h := c3_default_columns exDS "Weight" "Value" 0 2 1 (by omega) (by decide) (by omega)
  exact ⟨h.2.2.1 (by decide), h.2.2.2.1 (Or.inr rfl) (by decide), h.2.2.2.2 (by decide), h.2.1⟩

/-- C1: for every valid strided range request on a dataset source and every
exposed column (file-backed or default), the read succeeds with exactly
`ceil((stop-start)/step)` values, and those values equal the full-dataset
column read sliced in memory at `[start:stop:step]`. -/
theorem c1_read_matches_slice (d : DatasetSource) (c : ColName) (start stop istep : Nat)
    (h1 : start ≤ stop) (h2 : stop ≤ d.size) (h3 : 1 ≤ istep) (hc : c ∈ d.columns) :
    ∃ vals full,
      d.readCol c start stop istep = .ok vals ∧
      d.readCol c 0 d.size 1 = .ok full ∧
      vals.length = ceilDiv (stop - start) istep ∧
      vals = strided full start stop istep := by
  by_cases hsc : c ∈ d.stack.schema.map Prod.fst
  · refine ⟨colVals (strided d.stack.allRows start stop istep) c,
      colVals d.stack.allRows c, ?_, ?_, ?_, ?_⟩
    · unfold DatasetSource.readCol
      rw [if_pos ⟨h1, h2, h3⟩, if_pos hsc,
        stackReadOk d.stack [c] start stop istep h1 h2 h3]
      rfl
    · unfold DatasetSource.readCol
      rw [if_pos ⟨Nat.zero_le _, le_refl _, by omega⟩, if_pos hsc,
        stackReadOk d.stack [c] 0 d.size 1 (Nat.zero_le _) (le_refl _) (by omega)]
      have hfull : strided d.stack.allRows 0 d.size 1 = d.stack.allRows := stridedFull _
      rw [hfull]
      rfl
    · unfold colVals
      rw [List.length_map]
      exact lengthStrided d.stack.allRows start stop istep h3 h2
    · unfold colVals
      exact stridedMap _ _ _ _ _
  · have hdef : c ∈ defaultNames := by
      have hm := hc
      unfold DatasetSource.columns at hm
      rw [List.mem_dedup, List.mem_append] at hm
      tauto
    refine ⟨defaultVal c (ceilDiv (stop - start) istep),
      defaultVal c (ceilDiv (d.size - 0) 1), ?_, ?_, ?_, ?_⟩
    · unfold DatasetSource.readCol
      rw [if_pos ⟨h1, h2, h3⟩, if_neg hsc, if_pos hdef]
    · unfold DatasetSource.readCol
      rw [if_pos ⟨Nat.zero_le _, le_refl _, by omega⟩, if_neg hsc, if_pos hdef]
    · exact defaultValLen _ _
    · have hsz : ceilDiv (d.size - 0) 1 = d.size := by
        rw [Nat.sub_zero, ceilDivOne]
      rw [hsz]
      unfold defaultVal
      split_ifs
      · exact (stridedReplicate d.size _ start stop istep h3 h2).symm
      · exact (stridedReplicate d.size _ start stop istep h3 h2).symm

/-- Witness for C1: a step-2 request for the file-backed `Mass` column on
the concrete three-row dataset. -/
theorem c1_witness :
    ∃ vals full,
      exDS.readCol "Mass" 1 3 2 = .ok vals ∧
      exDS.readCol "Mass" 0 exDS.size 1 = .ok full ∧
      vals.length = ceilDiv (3 - 1) 2 ∧
      vals = strided full 1 3 2 :=
  c1_read_matches_slice exDS "Mass" 1 3 2 (by omega) (by decide) (by omega) (by decide)
